import Mathlib

/-!
Verification of the aggregation and reporting core of the Survey123
webhook server (`src/webhook-server/app.py`).

The Python functions are shallowly embedded as executable Lean
definitions: attribute records become association lists from field
names to optional string values (a `none` value models a JSON null or
an absent key), Python dicts used as counters become insertion-ordered
association lists, and the stable `sorted(..., key=lambda x: -x[1])`
becomes a stable insertion sort by descending count.  The external
ArcGIS service is modelled by an environment supplying the token and
the per-batch responses, so that both attachment-reconciliation
variants become total functions of that environment.
-/

namespace Survey123

/-- An attribute record: a finite mapping from field names to optional
string values, as produced by the webhook ingestion (the `attributes`
JSONB column) or by the CSV loader.  A `none` value models a JSON null;
an absent key models a missing field. -/
abbrev AttributeRecord := List (String × Option String)

/-- Python's `attrs.get(key)`: `none` when the key is absent or when the
stored value is null. -/
def getAttr (r : AttributeRecord) (key : String) : Option String :=
  (r.lookup key).bind id

/-- Python's `str.strip()`: remove leading and trailing whitespace,
written structurally over the character list so that it computes by
kernel reduction. -/
def strip (s : String) : String :=
  ⟨((s.data.dropWhile Char.isWhitespace).reverse.dropWhile
      Char.isWhitespace).reverse⟩

/-- Python's `str.split(",")`: cut the string at every comma, keeping
empty pieces (so `"".split(",") == [""]`). -/
def splitCommaAux : List Char → List Char → List String
  | [], acc => [⟨acc.reverse⟩]
  | c :: cs, acc =>
      if c = ',' then (⟨acc.reverse⟩ : String) :: splitCommaAux cs []
      else splitCommaAux cs (c :: acc)

def splitComma (s : String) : List String :=
  splitCommaAux s.data []

/-- Python's `str.lower()` on the ASCII range (MIME types are ASCII). -/
def lowerAscii (s : String) : String :=
  ⟨s.data.map Char.toLower⟩

/-- Python's `str.startswith(p)`. -/
def strStartsWith (s p : String) : Bool :=
  decide (s.data.take p.data.length = p.data)

/-- The shared emptiness test of `_count_attr` and `_distribution`
(app.py lines 349 and 359): `val is not None and str(val).strip() != ""`. -/
def isCollected : Option String → Bool
  | none => false
  | some s => strip s != ""

/-- Embedding of `_count_attr(rows, key)` (app.py lines 344-351): count
the rows whose value for `key` is non-null and non-empty after trimming. -/
def count_attr (rows : List AttributeRecord) (key : String) : Nat :=
  rows.countP (fun r => isCollected (getAttr r key))

/-- One counting-dict increment, `dist[label] = dist.get(label, 0) + 1`,
on an insertion-ordered association list: an existing key keeps its
position, a new key is appended at the end (Python dict semantics). -/
def bump : List (String × Nat) → String → List (String × Nat)
  | [], label => [(label, 1)]
  | (k, n) :: rest, label =>
      if k = label then (k, n + 1) :: rest else (k, n) :: bump rest label

/-- The label remapping inside `_distribution` (app.py lines 360-362):
return the mapped label when the raw value is a key of the table, else
the raw value unchanged. -/
def normalize (label_map : List (String × String)) (v : String) : String :=
  match label_map.lookup v with
  | some l => l
  | none => v

/-- Remapping with an optional table, matching the
`if label_map and val in label_map` guard (a `None` or empty table
changes nothing, which coincides with plain lookup failure). -/
def normalizeOpt (label_map : Option (List (String × String))) (v : String) :
    String :=
  match label_map with
  | some m => normalize m v
  | none => v

/-- The insertion-ordered counting dict built by the loop of
`_distribution` (app.py lines 356-363), before sorting: each row whose
value is non-null and non-whitespace bumps the bucket of its (optionally
remapped) raw value. -/
def distributionRaw (rows : List AttributeRecord) (key : String)
    (label_map : Option (List (String × String))) : List (String × Nat) :=
  rows.foldl
    (fun dist r =>
      match getAttr r key with
      | none => dist
      | some v =>
          if strip v = "" then dist else bump dist (normalizeOpt label_map v))
    []

/-- Stable insertion of one entry into a list already sorted by
descending count: the entry goes before the first element whose count is
less than or equal to its own.  Folding this over the dict items yields
exactly Python's stable `sorted(dist.items(), key=lambda x: -x[1])`. -/
def insertByCount (x : String × Nat) :
    List (String × Nat) → List (String × Nat)
  | [] => [x]
  | y :: ys => if y.2 ≤ x.2 then x :: y :: ys else y :: insertByCount x ys

/-- Stable sort by descending count, modelling
`sorted(dist.items(), key=lambda x: -x[1])` (app.py line 364). -/
def sortByCountDesc : List (String × Nat) → List (String × Nat)
  | [] => []
  | x :: xs => insertByCount x (sortByCountDesc xs)

/-- Embedding of `_distribution(rows, key, label_map)` (app.py lines
354-364). -/
def distribution (rows : List AttributeRecord) (key : String)
    (label_map : Option (List (String × String))) : List (String × Nat) :=
  sortByCountDesc (distributionRaw rows key label_map)

/-- The insertion-ordered counting dict built by the multi-value loops
for `language`, `cuisine` and `accepted_payment_methods` (app.py lines
718-726, 741-749, 752-760, 1043-1051, 1053-1071): for each row with a
truthy value, split on commas, trim each token, drop empty tokens and
bump each remaining token's bucket. -/
def multiDistributionRaw (rows : List AttributeRecord) (key : String) :
    List (String × Nat) :=
  rows.foldl
    (fun dist r =>
      if (getAttr r key).getD "" = "" then dist
      else
        (splitComma ((getAttr r key).getD "")).foldl
          (fun d t => if strip t = "" then d else bump d (strip t))
          dist)
    []

/-- A multi-value distribution after the final descending sort (app.py
lines 726, 749, 760, 1051, 1061, 1071). -/
def multiDistribution (rows : List AttributeRecord) (key : String) :
    List (String × Nat) :=
  sortByCountDesc (multiDistributionRaw rows key)

/-- Sum of the counts of a distribution. -/
def sumCounts (d : List (String × Nat)) : Nat :=
  (d.map Prod.snd).sum

/-- The count stored for a label, `dist.get(label, 0)`. -/
def countOf (d : List (String × Nat)) (label : String) : Nat :=
  (d.lookup label).getD 0

/-- The labels of a stream in first-encounter order, with duplicates
dropped: the key order a Python dict acquires when the stream's labels
are bumped into it one by one. -/
def firstSeen (ls : List String) : List String :=
  ls.foldl (fun acc l => if acc.contains l then acc else acc ++ [l]) []

/-- The stream of labels bumped by `_distribution`, in row order: at most
one label per qualifying row. -/
def singleLabelStream (rows : List AttributeRecord) (key : String)
    (label_map : Option (List (String × String))) : List String :=
  rows.flatMap
    (fun r =>
      match getAttr r key with
      | none => []
      | some v => if strip v = "" then [] else [normalizeOpt label_map v])

/-- The trimmed, non-empty comma-separated tokens of one raw value. -/
def tokensOf (v : String) : List String :=
  if v = "" then []
  else ((splitComma v).map strip).filter (fun t => t != "")

/-- The stream of tokens bumped by a multi-value loop, in row order. -/
def multiLabelStream (rows : List AttributeRecord) (key : String) :
    List String :=
  rows.flatMap (fun r => tokensOf ((getAttr r key).getD ""))

/-- The `CATEGORY_LABELS` table (app.py lines 382-391). -/
def CATEGORY_LABELS : List (String × String) :=
  [("health_medical", "Health & Medical"),
   ("finance_insurance", "Finance & Insurance"),
   ("culture_art", "Culture & Art"),
   ("life_convenience", "Life & Convenience"),
   ("services_industry", "Services & Industry"),
   ("shopping_distribution", "Shopping & Distribution"),
   ("accommodation", "Accommodation"),
   ("restaurants", "Restaurants")]

/-- The `STATUS_LABELS` table (app.py lines 393-400). -/
def STATUS_LABELS : List (String × String) :=
  [("open", "Open"),
   ("closed", "Permanently Closed"),
   ("temporary_closed", "Temporarily Closed"),
   ("under_construction", "Under Construction"),
   ("coming_soon", "Coming Soon"),
   ("relocated", "Relocated")]

/-- A mapping whose value set is disjoint from its key set: no mapped
label ever occurs as a key (the canonical-label invariant). -/
def keyValDisjoint (m : List (String × String)) : Bool :=
  m.all (fun kv => !((m.map Prod.fst).contains kv.2))

/-- The fixed ArcGIS attachment batch size (`batch_size = 100`,
app.py lines 251 and 311). -/
def batchSize : Nat := 100

/-- The batch slicing loop `for i in range(0, len(object_ids), 100):
batch_ids = object_ids[i : i + 100]`, written with an explicit fuel
argument so that it computes by reduction; `len(object_ids)` units of
fuel always suffice because every iteration consumes at least one
element.  Identifiers are optional to represent possible nulls; the
code batches them without any filtering. -/
def chunksAux (fuel : Nat) (l : List (Option Nat)) :
    List (List (Option Nat)) :=
  match fuel, l with
  | _, [] => []
  | 0, _ :: _ => []
  | fuel + 1, x :: xs =>
      ((x :: xs).take batchSize) :: chunksAux fuel ((x :: xs).drop batchSize)

/-- The list of identifier batches queried by both reconciliation
variants, in order. -/
def chunks (l : List (Option Nat)) : List (List (Option Nat)) :=
  chunksAux l.length l

/-- One attachment as returned by `queryAttachments`: its contentType
and keywords fields, each possibly null. -/
structure Attachment where
  contentType : Option String
  keywords : Option String
deriving DecidableEq

/-- The outcome of one `queryAttachments` call: either a payload with an
`error` member, or a list of attachment groups (one group per source
record), each a list of `attachmentInfos`. -/
inductive BatchResponse where
  | error : BatchResponse
  | groups : List (List Attachment) → BatchResponse

/-- The environment of external-collaborator behaviour a reconciliation
run observes: the auth token (if obtainable), the identifier list the id
query returns, and the response to the i-th batch query. -/
structure ArcGISEnv where
  token : Option String
  objectIds : List (Option Nat)
  resp : Nat → BatchResponse

/-- The responses the sequential batch loop would receive, one per
batch, in order. -/
def batchResponses (env : ArcGISEnv) : List BatchResponse :=
  (List.range (chunks env.objectIds).length).map env.resp

/-- The photo/video tally of one batch payload (app.py lines 273-279):
classify each attachment by lowercased MIME-type prefix. -/
def countBatchPV (gs : List (List Attachment)) : Nat × Nat :=
  gs.foldl
    (fun pv g =>
      g.foldl
        (fun pv a =>
          let ct := lowerAscii (a.contentType.getD "")
          if strStartsWith ct "image/" then (pv.1 + 1, pv.2)
          else if strStartsWith ct "video/" then (pv.1, pv.2 + 1)
          else pv)
        pv)
    ((0, 0) : Nat × Nat)

/-- The batch loop of `_get_attachment_counts` (app.py lines 253-279):
accumulate photo and video totals batch by batch; a batch response
carrying an `error` member makes the whole function return
`None, None`, discarding everything accumulated so far. -/
def countsLoop : List BatchResponse → Nat → Nat → Option (Nat × Nat)
  | [], p, v => some (p, v)
  | BatchResponse.error :: _, _, _ => none
  | BatchResponse.groups gs :: rest, p, v =>
      countsLoop rest (p + (countBatchPV gs).1) (v + (countBatchPV gs).2)

/-- Embedding of `_get_attachment_counts()` (app.py lines 222-285) as a
function of the external environment.  `none` models the Python return
value `(None, None)`. -/
def get_attachment_counts (env : ArcGISEnv) : Option (Nat × Nat) :=
  match env.token with
  | none => none
  | some _ =>
      if env.objectIds.isEmpty then some (0, 0)
      else countsLoop (batchResponses env) 0 0

/-- The detailed attachment summary of `_get_attachment_details`
(app.py lines 291-293). -/
structure AttachmentSummary where
  total_photos : Nat
  total_videos : Nat
  by_keyword : List (String × Nat)
  pois_with_photos : Nat
  pois_with_videos : Nat
  total_pois_queried : Nat
deriving DecidableEq

/-- The all-zero summary the function starts from and returns on auth
failure. -/
def emptySummary : AttachmentSummary :=
  { total_photos := 0, total_videos := 0, by_keyword := [],
    pois_with_photos := 0, pois_with_videos := 0, total_pois_queried := 0 }

/-- Processing of one attachment group (app.py lines 322-337): bump the
keyword histogram for every attachment (`att.get("keywords") or
"other"`, so a null or empty keyword becomes "other"), classify by
MIME-type prefix, and raise the per-record photo/video counters when the
group contributed at least one of each. -/
def processGroup (s : AttachmentSummary) (g : List Attachment) :
    AttachmentSummary :=
  let step :=
    g.foldl
      (fun (acc : AttachmentSummary × Bool × Bool) a =>
        let s0 := acc.1
        let ct := lowerAscii (a.contentType.getD "")
        let kw :=
          match a.keywords with
          | none => "other"
          | some k => if k = "" then "other" else k
        let s1 := { s0 with by_keyword := bump s0.by_keyword kw }
        if strStartsWith ct "image/" then
          ({ s1 with total_photos := s1.total_photos + 1 }, true, acc.2.2)
        else if strStartsWith ct "video/" then
          ({ s1 with total_videos := s1.total_videos + 1 }, acc.2.1, true)
        else (s1, acc.2.1, acc.2.2))
      (s, false, false)
  let s2 :=
    if step.2.1 then
      { step.1 with pois_with_photos := step.1.pois_with_photos + 1 }
    else step.1
  if step.2.2 then
    { s2 with pois_with_videos := s2.pois_with_videos + 1 }
  else s2

/-- The batch loop of `_get_attachment_details` (app.py lines 311-337):
on an `error` member the loop breaks, keeping the summary accumulated
from the batches processed before the error. -/
def detailsLoop : List BatchResponse → AttachmentSummary → AttachmentSummary
  | [], s => s
  | BatchResponse.error :: _, s => s
  | BatchResponse.groups gs :: rest, s =>
      detailsLoop rest (gs.foldl processGroup s)

/-- Embedding of `_get_attachment_details()` (app.py lines 288-341) as a
function of the external environment. -/
def get_attachment_details (env : ArcGISEnv) : AttachmentSummary :=
  match env.token with
  | none => emptySummary
  | some _ =>
      if env.objectIds.isEmpty then emptySummary
      else
        detailsLoop (batchResponses env)
          { emptySummary with total_pois_queried := env.objectIds.length }

/-- The media totals the JSON report publishes (app.py lines 669-671):
`total_photos = arcgis_photos if arcgis_photos is not None else 0` and
likewise for videos. -/
def reportMediaTotals (env : ArcGISEnv) : Nat × Nat :=
  match get_attachment_counts env with
  | some pv => pv
  | none => (0, 0)

/-- The `quality_fields` table of `client_report` (app.py lines
1127-1134): the ten core fields entering the data-quality score, each
with its display label. -/
def quality_fields : List (String × String) :=
  [("Arabic Name", "name_ar"), ("English Name", "name_en"),
   ("Category", "category"), ("Subcategory", "secondary_category"),
   ("Status", "company_status"), ("Phone Number", "phone_number"),
   ("Website", "website"), ("Working Days", "working_days"),
   ("Working Hours", "working_hours_each_day"),
   ("Social Media", "social_media")]

/-- The `total_filled` accumulator of `client_report` (app.py lines
1136-1141): the sum of the per-field non-empty counts over the quality
fields. -/
def total_filled (rows : List AttributeRecord) : Nat :=
  quality_fields.foldl (fun t lf => t + count_attr rows lf.2) 0

/-- The overall data-quality score (app.py lines 1142-1143):
`total_filled / total_possible * 100 if total_possible > 0 else 0`
with `total_possible = len(quality_fields) * total_pois`.  Python float
division is modelled by exact rational division. -/
def overall_quality (rows : List AttributeRecord) : ℚ :=
  let total_pois := rows.length
  let total_possible := quality_fields.length * total_pois
  if total_possible > 0 then
    (total_filled rows : ℚ) / (total_possible : ℚ) * 100
  else 0

/-! ### Basic lemmas about the counting dict and the stable sort -/

theorem sumCounts_nil : sumCounts [] = 0 := rfl

theorem sumCounts_cons (kv : String × Nat) (d : List (String × Nat)) :
    sumCounts (kv :: d) = kv.2 + sumCounts d := by
  simp [sumCounts]

theorem sumCounts_bump (d : List (String × Nat)) (label : String) :
    sumCounts (bump d label) = sumCounts d + 1 := by
  induction d with
  | nil => simp [bump, sumCounts]
  | cons kv rest ih =>
      obtain ⟨k, n⟩ := kv
      by_cases h : k = label
      · simp [bump, h, sumCounts_cons]
        omega
      · simp [bump, h, sumCounts_cons, ih]
        omega

theorem sumCounts_insertByCount (x : String × Nat) (l : List (String × Nat)) :
    sumCounts (insertByCount x l) = x.2 + sumCounts l := by
  induction l with
  | nil => simp [insertByCount, sumCounts_cons, sumCounts_nil]
  | cons y ys ih =>
      by_cases h : y.2 ≤ x.2
      · simp [insertByCount, h, sumCounts_cons]
      · simp [insertByCount, h, sumCounts_cons, ih]
        omega

theorem sumCounts_sortByCountDesc (l : List (String × Nat)) :
    sumCounts (sortByCountDesc l) = sumCounts l := by
  induction l with
  | nil => rfl
  | cons x xs ih =>
      simp [sortByCountDesc, sumCounts_insertByCount, sumCounts_cons, ih]

theorem sumCounts_distFold (key : String)
    (label_map : Option (List (String × String)))
    (rows : List AttributeRecord) (d : List (String × Nat)) :
    sumCounts
        (rows.foldl
          (fun dist r =>
            match getAttr r key with
            | none => dist
            | some v =>
                if strip v = "" then dist
                else bump dist (normalizeOpt label_map v))
          d)
      = sumCounts d + count_attr rows key := by
  induction rows generalizing d with
  | nil => simp [count_attr]
  | cons r rows ih =>
      rw [List.foldl_cons, ih]
      unfold count_attr
      rw [List.countP_cons]
      cases h : getAttr r key with
      | none => simp [isCollected, h, count_attr]
      | some v =>
          by_cases hv : strip v = ""
          · simp [isCollected, h, hv, count_attr]
          · simp [isCollected, h, hv, count_attr, sumCounts_bump]
            omega

/-- C1: for every list of attribute records, every field name and every
optional label remap table, the sum of the counts of the single-value
distribution produced by `_distribution` equals the non-empty count
computed by `_count_attr` for that field. -/
theorem single_distribution_sum_eq_count
    (rows : List AttributeRecord) (key : String)
    (label_map : Option (List (String × String))) :
    sumCounts (distribution rows key label_map) = count_attr rows key := by
  unfold distribution
  rw [sumCounts_sortByCountDesc]
  have h := sumCounts_distFold key label_map rows []
  simpa [distributionRaw, sumCounts_nil] using h

/-! ### Lookup helper lemmas -/

theorem lookup_mem {β : Type} {l : List (String × β)} {x : String} {v : β}
    (h : l.lookup x = some v) : (x, v) ∈ l := by
  induction l with
  | nil => simp [List.lookup] at h
  | cons p rest ih =>
      obtain ⟨k, b⟩ := p
      rw [List.lookup] at h
      cases hxk : (x == k) with
      | true =>
          rw [hxk] at h
          simp at h
          subst h
          have : x = k := by simpa using hxk
          subst this
          exact List.mem_cons_self _ _
      | false =>
          rw [hxk] at h
          simp at h
          exact List.mem_cons_of_mem _ (ih h)

theorem lookup_eq_none_of_not_key {β : Type} {l : List (String × β)}
    {x : String} (h : ∀ b, (x, b) ∉ l) : l.lookup x = none := by
  induction l with
  | nil => rfl
  | cons p rest ih =>
      obtain ⟨k, b⟩ := p
      rw [List.lookup]
      have hxk : (x == k) = false := by
        cases hh : (x == k) with
        | true =>
            have hx : x = k := by simpa using hh
            subst hx
            exact absurd (List.mem_cons_self _ _) (h b)
        | false => rfl
      rw [hxk]
      exact ih (fun b2 hb2 => (h b2) (List.mem_cons_of_mem _ hb2))

/-! ### C2: values that contribute nothing -/

/-- C2 counterexample: a record whose field value is the literal string
"None" is counted as collected — it contributes 1, not 0, to both the
non-empty count and the distribution, because the code only tests for
the Python `None` object and for whitespace emptiness. -/
theorem literal_none_string_is_counted :
    count_attr [[("language", some "None")]] "language" = 1 ∧
    distribution [[("language", some "None")]] "language" none
      = [("None", 1)] := by
  constructor
  · decide
  · decide

/-- C2 (amended): a record whose value for the field is absent (or a
JSON null) or a whitespace-only string contributes zero to both the
non-empty count and the single-value distribution — those cases are
treated identically as not collected.  (The literal string "None" is
not such a case: it is counted as a normal value.) -/
theorem empty_value_zero_contribution
    (r : AttributeRecord) (rows : List AttributeRecord) (key : String)
    (label_map : Option (List (String × String)))
    (h : getAttr r key = none ∨
      ∃ s, getAttr r key = some s ∧ strip s = "") :
    count_attr (r :: rows) key = count_attr rows key ∧
    distribution (r :: rows) key label_map
      = distribution rows key label_map := by
  have hc : isCollected (getAttr r key) = false := by
    rcases h with h | ⟨s, hs, hstrip⟩
    · simp [isCollected, h]
    · simp [isCollected, hs, hstrip]
  constructor
  · unfold count_attr
    rw [List.countP_cons]
    simp [hc, count_attr]
  · have hstep : distributionRaw (r :: rows) key label_map
        = distributionRaw rows key label_map := by
      unfold distributionRaw
      rw [List.foldl_cons]
      rcases h with h | ⟨s, hs, hstrip⟩
      · rw [h]
      · rw [hs]
        simp [hstrip]
    rw [distribution, distribution, hstep]

theorem empty_value_zero_contribution_witness :
    count_attr [[("f", some "   ")], [("f", some "x")]] "f"
      = count_attr [[("f", some "x")]] "f" ∧
    distribution [[("f", some "   ")], [("f", some "x")]] "f" none
      = distribution [[("f", some "x")]] "f" none :=
  empty_value_zero_contribution [("f", some "   ")] [[("f", some "x")]]
    "f" none (Or.inr ⟨"   ", by decide, by decide⟩)

/-! ### C9: idempotence of label normalization -/

/-- C9: label normalization (table lookup with pass-through of unmapped
values) is idempotent for every mapping whose value set is disjoint from
its key set, and the configured `CATEGORY_LABELS` and `STATUS_LABELS`
tables satisfy that canonical-label invariant. -/
theorem normalize_idempotent (m : List (String × String))
    (hm : keyValDisjoint m = true) (x : String) :
    normalize m (normalize m x) = normalize m x ∧
    keyValDisjoint CATEGORY_LABELS = true ∧
    keyValDisjoint STATUS_LABELS = true := by
  refine ⟨?_, by decide, by decide⟩
  cases hx : m.lookup x with
  | none => simp [normalize, hx]
  | some l =>
      have hmem : (x, l) ∈ m := lookup_mem hx
      have hkey := (List.all_eq_true.mp hm) _ hmem
      have hnot : ∀ b, (l, b) ∉ m := by simpa using hkey
      have hl : m.lookup l = none := lookup_eq_none_of_not_key hnot
      simp [normalize, hx, hl]

theorem normalize_idempotent_witness :
    normalize CATEGORY_LABELS (normalize CATEGORY_LABELS "restaurants")
      = normalize CATEGORY_LABELS "restaurants" ∧
    keyValDisjoint CATEGORY_LABELS = true ∧
    keyValDisjoint STATUS_LABELS = true :=
  normalize_idempotent CATEGORY_LABELS (by decide) "restaurants"

/-! ### C10: the bucket label is the raw, untrimmed value -/

/-- C10: whether a record contributes is decided on the whitespace-
trimmed value, but the bucket label is the raw, untrimmed value (with
the remap table consulted on the exact untrimmed value): a qualifying
record bumps the bucket of its raw value, and two records whose values
differ only in surrounding whitespace land in distinct buckets. -/
theorem distribution_labels_untrimmed
    (rows : List AttributeRecord) (r : AttributeRecord) (key : String)
    (label_map : Option (List (String × String))) (v : String)
    (h1 : getAttr r key = some v) (h2 : strip v ≠ "") :
    distributionRaw (rows ++ [r]) key label_map
      = bump (distributionRaw rows key label_map) (normalizeOpt label_map v) ∧
    distribution
        [[("category", some "Cafe")], [("category", some " Cafe ")]]
        "category" none
      = [("Cafe", 1), (" Cafe ", 1)] ∧
    distribution
        [[("category", some "Cafe")], [("category", some " Cafe ")]]
        "category" (some [("Cafe", "Restaurants")])
      = [("Restaurants", 1), (" Cafe ", 1)] ∧
    strip "Cafe" = strip " Cafe " := by
  refine ⟨?_, by decide, by decide, by decide⟩
  unfold distributionRaw
  rw [List.foldl_append]
  simp [h1, h2]

theorem distribution_labels_untrimmed_witness :
    distributionRaw ([] ++ [[("category", some " Cafe ")]]) "category" none
      = bump (distributionRaw [] "category" none)
          (normalizeOpt none " Cafe ") ∧
    distribution
        [[("category", some "Cafe")], [("category", some " Cafe ")]]
        "category" none
      = [("Cafe", 1), (" Cafe ", 1)] ∧
    distribution
        [[("category", some "Cafe")], [("category", some " Cafe ")]]
        "category" (some [("Cafe", "Restaurants")])
      = [("Restaurants", 1), (" Cafe ", 1)] ∧
    strip "Cafe" = strip " Cafe " :=
  distribution_labels_untrimmed [] [("category", some " Cafe ")] "category"
    none " Cafe " (by decide) (by decide)

/-! ### C8: the overall data-quality score -/

/-- C8: the overall data-quality score equals the sum of the per-field
non-empty counts over the ten core fields, divided by ten times the
total record count, times 100, and it is 0 when the record count is 0
(the guard `total_possible > 0` keeps the division away from a zero
denominator). -/
theorem overall_quality_spec (rows : List AttributeRecord) :
    quality_fields.length = 10 ∧
    overall_quality rows =
      (if rows.length = 0 then 0
       else ((quality_fields.map (fun lf => count_attr rows lf.2)).sum : ℚ)
              / (10 * (rows.length : ℚ)) * 100) := by
  refine ⟨by decide, ?_⟩
  have h10 : quality_fields.length = 10 := by decide
  have hfill : total_filled rows
      = (quality_fields.map (fun lf => count_attr rows lf.2)).sum := by
    simp only [total_filled, quality_fields, List.foldl_cons, List.foldl_nil,
      List.map_cons, List.map_nil, List.sum_cons, List.sum_nil]
    omega
  by_cases hrow : rows.length = 0
  · rw [if_pos hrow]
    simp [overall_quality, hrow]
  · rw [if_neg hrow]
    have hpos : 0 < quality_fields.length * rows.length := by
      rw [h10]; omega
    simp only [overall_quality]
    rw [if_pos hpos, hfill, h10]
    push_cast
    ring

/-! ### C5: batching of attachment queries -/

theorem chunksAux_length (fuel : Nat) (l : List (Option Nat))
    (h : l.length ≤ fuel) :
    (chunksAux fuel l).length = (l.length + 99) / 100 := by
  induction fuel generalizing l with
  | zero =>
      cases l with
      | nil => simp [chunksAux]
      | cons x xs => simp at h
  | succ fuel ih =>
      cases l with
      | nil => simp [chunksAux]
      | cons x xs =>
          rw [chunksAux]
          simp only [List.length_cons] at h
          have hd : ((x :: xs).drop batchSize).length
              = xs.length + 1 - 100 := by
            simp [List.length_drop, batchSize]
          have hfuel : ((x :: xs).drop batchSize).length ≤ fuel := by
            rw [hd]; omega
          simp only [List.length_cons]
          rw [ih _ hfuel, hd]
          omega

theorem chunks_length (l : List (Option Nat)) :
    (chunks l).length = (l.length + 99) / 100 :=
  chunksAux_length _ _ le_rfl

theorem chunksAux_all_le (fuel : Nat) (l : List (Option Nat)) :
    (chunksAux fuel l).all (fun b => b.length ≤ 100) = true := by
  induction fuel generalizing l with
  | zero =>
      cases l with
      | nil => simp [chunksAux]
      | cons x xs => simp [chunksAux]
  | succ fuel ih =>
      cases l with
      | nil => simp [chunksAux]
      | cons x xs =>
          rw [chunksAux]
          rw [List.all_cons]
          simp only [Bool.and_eq_true]
          constructor
          · simp [List.length_take, batchSize]
          · exact ih _

/-- C5 counterexample: null identifiers are not filtered out — given
the single-element identifier list `[null]`, the code issues one batch
query over it, whereas filtering nulls first and batching the remainder
would issue zero queries (ceil(0/100) = 0). -/
theorem null_identifiers_not_filtered :
    (chunks [(none : Option Nat)]).length = 1 ∧
    (((([(none : Option Nat)].filter (fun o => o.isSome)).length) + 99)
        / 100) = 0 := by
  constructor
  · decide
  · decide

set_option maxRecDepth 4000 in
/-- C5 (amended): attachment reconciliation partitions the identifier
list into fixed-size batches of 100 without filtering null identifiers:
a list of n identifiers (nulls included) yields exactly ceil(n/100)
batch queries, each over at most 100 identifiers, and 150 identifiers
yield exactly 2 queries of 100 and 50. -/
theorem batching_spec (ids : List (Option Nat)) :
    (chunks ids).length = (ids.length + 99) / 100 ∧
    (chunks ids).all (fun b => b.length ≤ 100) = true ∧
    ((chunks ((List.range 150).map (fun i => some i))).map List.length)
      = [100, 50] :=
  ⟨chunks_length ids, chunksAux_all_le _ _, by decide⟩

/-! ### C6 and C7: degradation behaviour of the two reconciliation variants -/

/-- A concrete environment in which the auth token is unavailable. -/
def envNoToken : ArcGISEnv :=
  { token := none, objectIds := [some 1, some 2],
    resp := fun _ => BatchResponse.error }

/-- C6: when the auth token cannot be obtained, the detailed
reconciliation returns the all-zero summary with an empty keyword
histogram, the photo/video counter returns `None`, and the report's
media metrics degrade to zero instead of failing. -/
theorem auth_failure_degrades_to_zero (env : ArcGISEnv)
    (h : env.token = none) :
    get_attachment_details env = emptySummary ∧
    get_attachment_counts env = none ∧
    reportMediaTotals env = (0, 0) := by
  refine ⟨?_, ?_, ?_⟩
  · simp [get_attachment_details, h]
  · simp [get_attachment_counts, h]
  · simp [reportMediaTotals, get_attachment_counts, h]

theorem auth_failure_degrades_to_zero_witness :
    get_attachment_details envNoToken = emptySummary ∧
    get_attachment_counts envNoToken = none ∧
    reportMediaTotals envNoToken = (0, 0) :=
  auth_failure_degrades_to_zero envNoToken rfl

/-- A concrete environment with 101 identifiers (two batches), whose
first batch returns one image attachment and whose second batch reports
an error. -/
def envTwoBatches : ArcGISEnv :=
  { token := some "tok",
    objectIds := (List.range 101).map (fun i => some i),
    resp := fun i =>
      if i = 0 then
        BatchResponse.groups
          [[{ contentType := some "image/jpeg",
              keywords := some "entrance_photo" }]]
      else BatchResponse.error }

set_option maxRecDepth 4000 in
/-- C7: the two reconciliation variants disagree on batch errors: the
photo/video counter used by the JSON report discards everything on the
first batch error (returning `None`, which the report zeroes), while
the detailed summary stops at the error but keeps the counts already
accumulated — concretely, with one image in the first batch and an
error in the second, one variant reports (0, 0) and the other reports
1 photo. -/
theorem reconciliation_variants_disagree :
    (∀ rest p v, countsLoop (BatchResponse.error :: rest) p v = none) ∧
    (∀ rest s, detailsLoop (BatchResponse.error :: rest) s = s) ∧
    get_attachment_counts envTwoBatches = none ∧
    reportMediaTotals envTwoBatches = (0, 0) ∧
    (get_attachment_details envTwoBatches).total_photos = 1 := by
  refine ⟨fun rest p v => rfl, fun rest s => rfl, ?_, ?_, ?_⟩
  · decide
  · decide
  · decide

/-! ### Representation of the counting dicts as label-stream folds -/

/-- Folding a stream of labels into a counting dict. -/
def bumpAll (d : List (String × Nat)) (ls : List String) :
    List (String × Nat) :=
  ls.foldl bump d

theorem bumpAll_nil (d : List (String × Nat)) : bumpAll d [] = d := rfl

theorem bumpAll_cons (d : List (String × Nat)) (l : String)
    (ls : List String) : bumpAll d (l :: ls) = bumpAll (bump d l) ls := rfl

theorem bumpAll_append (d : List (String × Nat)) (a b : List String) :
    bumpAll d (a ++ b) = bumpAll (bumpAll d a) b := by
  unfold bumpAll
  rw [List.foldl_append]

theorem distFold_eq_bumpAll (key : String)
    (label_map : Option (List (String × String)))
    (rows : List AttributeRecord) (d : List (String × Nat)) :
    rows.foldl
        (fun dist r =>
          match getAttr r key with
          | none => dist
          | some v =>
              if strip v = "" then dist
              else bump dist (normalizeOpt label_map v))
        d
      = bumpAll d (singleLabelStream rows key label_map) := by
  induction rows generalizing d with
  | nil => simp [bumpAll, singleLabelStream]
  | cons r rows ih =>
      rw [List.foldl_cons, ih]
      unfold singleLabelStream
      rw [List.flatMap_cons]
      rw [bumpAll_append]
      cases hv : getAttr r key with
      | none => simp [bumpAll]
      | some v =>
          by_cases hs : strip v = ""
          · simp [hs, bumpAll]
          · simp [hs, bumpAll]

theorem distributionRaw_eq_bumpAll (rows : List AttributeRecord)
    (key : String) (label_map : Option (List (String × String))) :
    distributionRaw rows key label_map
      = bumpAll [] (singleLabelStream rows key label_map) :=
  distFold_eq_bumpAll key label_map rows []

theorem tokenFold_eq_bumpAll (ts : List String) (d : List (String × Nat)) :
    ts.foldl
        (fun d t => if strip t = "" then d else bump d (strip t))
        d
      = bumpAll d ((ts.map strip).filter (fun t => t != "")) := by
  induction ts generalizing d with
  | nil => simp [bumpAll]
  | cons t ts ih =>
      rw [List.foldl_cons, ih]
      by_cases hs : strip t = ""
      · simp [hs, bumpAll]
      · simp [hs, bumpAll_cons]

theorem multiFold_eq_bumpAll (key : String) (rows : List AttributeRecord)
    (d : List (String × Nat)) :
    rows.foldl
        (fun dist r =>
          if (getAttr r key).getD "" = "" then dist
          else
            (splitComma ((getAttr r key).getD "")).foldl
              (fun d t => if strip t = "" then d else bump d (strip t))
              dist)
        d
      = bumpAll d (multiLabelStream rows key) := by
  induction rows generalizing d with
  | nil => simp [bumpAll, multiLabelStream]
  | cons r rows ih =>
      rw [List.foldl_cons, ih]
      unfold multiLabelStream
      rw [List.flatMap_cons, bumpAll_append]
      congr 1
      by_cases hv : (getAttr r key).getD "" = ""
      · rw [if_pos hv]
        unfold tokensOf
        rw [if_pos hv, bumpAll_nil]
      · rw [if_neg hv, tokenFold_eq_bumpAll]
        unfold tokensOf
        rw [if_neg hv]

theorem multiDistributionRaw_eq_bumpAll (rows : List AttributeRecord)
    (key : String) :
    multiDistributionRaw rows key = bumpAll [] (multiLabelStream rows key) :=
  multiFold_eq_bumpAll key rows []

/-! ### Key order of the counting dict: first-encounter order -/

theorem keys_bump (d : List (String × Nat)) (l : String) :
    (bump d l).map Prod.fst
      = if (d.map Prod.fst).contains l then d.map Prod.fst
        else d.map Prod.fst ++ [l] := by
  induction d with
  | nil => simp [bump]
  | cons kv rest ih =>
      obtain ⟨k, n⟩ := kv
      by_cases hk : k = l
      · subst hk
        simp [bump]
      · have hbeq : (l == k) = false := by
          simp
          exact fun h => hk h.symm
        rw [bump, if_neg hk]
        simp only [List.map_cons, List.contains_cons, hbeq, Bool.false_or]
        rw [ih]
        by_cases hc : (rest.map Prod.fst).contains l = true
        · rw [if_pos hc, if_pos hc]
        · rw [if_neg hc, if_neg hc]
          simp

theorem keys_bumpAll (ls : List String) (d : List (String × Nat)) :
    (bumpAll d ls).map Prod.fst
      = ls.foldl (fun acc l => if acc.contains l then acc else acc ++ [l])
          (d.map Prod.fst) := by
  induction ls generalizing d with
  | nil => simp [bumpAll]
  | cons l ls ih =>
      rw [bumpAll_cons, List.foldl_cons, ih, keys_bump]

theorem keys_distributionRaw (rows : List AttributeRecord) (key : String)
    (label_map : Option (List (String × String))) :
    (distributionRaw rows key label_map).map Prod.fst
      = firstSeen (singleLabelStream rows key label_map) := by
  rw [distributionRaw_eq_bumpAll, keys_bumpAll]
  rfl

theorem keys_multiDistributionRaw (rows : List AttributeRecord)
    (key : String) :
    (multiDistributionRaw rows key).map Prod.fst
      = firstSeen (multiLabelStream rows key) := by
  rw [multiDistributionRaw_eq_bumpAll, keys_bumpAll]
  rfl

/-! ### Sortedness and stability of the descending sort -/

theorem mem_insertByCount {x y : String × Nat} {l : List (String × Nat)} :
    y ∈ insertByCount x l ↔ y = x ∨ y ∈ l := by
  induction l with
  | nil => simp [insertByCount]
  | cons z zs ih =>
      by_cases hz : z.2 ≤ x.2
      · rw [insertByCount, if_pos hz]
        simp [or_comm, or_assoc, or_left_comm]
      · rw [insertByCount, if_neg hz]
        simp only [List.mem_cons, ih]
        tauto

theorem pairwise_insertByCount {x : String × Nat} {l : List (String × Nat)}
    (h : l.Pairwise (fun a b => b.2 ≤ a.2)) :
    (insertByCount x l).Pairwise (fun a b => b.2 ≤ a.2) := by
  induction l with
  | nil => simp [insertByCount]
  | cons y ys ih =>
      rcases List.pairwise_cons.mp h with ⟨hy, hys⟩
      by_cases hxy : y.2 ≤ x.2
      · rw [insertByCount, if_pos hxy]
        refine List.pairwise_cons.mpr ⟨?_, h⟩
        intro z hz
        rcases List.mem_cons.mp hz with rfl | hz2
        · exact hxy
        · exact le_trans (hy z hz2) hxy
      · rw [insertByCount, if_neg hxy]
        refine List.pairwise_cons.mpr ⟨?_, ih hys⟩
        intro z hz
        rcases mem_insertByCount.mp hz with rfl | hz2
        · omega
        · exact hy z hz2

theorem pairwise_sortByCountDesc (l : List (String × Nat)) :
    (sortByCountDesc l).Pairwise (fun a b => b.2 ≤ a.2) := by
  induction l with
  | nil => simp [sortByCountDesc]
  | cons x xs ih =>
      rw [sortByCountDesc]
      exact pairwise_insertByCount ih

theorem filter_insertByCount (x : String × Nat) (l : List (String × Nat))
    (c : Nat) :
    (insertByCount x l).filter (fun e => e.2 == c)
      = if x.2 == c then x :: l.filter (fun e => e.2 == c)
        else l.filter (fun e => e.2 == c) := by
  induction l with
  | nil =>
      rw [insertByCount]
      by_cases hx : x.2 = c
      · simp [hx]
      · simp [hx]
  | cons y ys ih =>
      by_cases hxy : y.2 ≤ x.2
      · rw [insertByCount, if_pos hxy]
        by_cases hx : x.2 = c
        · simp [List.filter_cons, hx]
        · simp [List.filter_cons, hx]
      · rw [insertByCount, if_neg hxy]
        by_cases hx : x.2 = c
        · have hyc : y.2 ≠ c := by omega
          simp [List.filter_cons, hx, hyc, ih]
        · have hx2 : (x.2 == c) = false := by simp [hx]
          rw [List.filter_cons, List.filter_cons, ih, hx2]
          by_cases hy : y.2 = c
          · simp [hy]
          · simp [hy]

theorem filter_sortByCountDesc (l : List (String × Nat)) (c : Nat) :
    (sortByCountDesc l).filter (fun e => e.2 == c)
      = l.filter (fun e => e.2 == c) := by
  induction l with
  | nil => rfl
  | cons x xs ih =>
      rw [sortByCountDesc, filter_insertByCount, ih, List.filter_cons]

/-- C3: every distribution returned by the aggregator — single-value or
multi-value — is ordered non-increasing by count; the entries with any
fixed count keep exactly their order in the unsorted counting dict
(stability of the sort), and the key order of that dict is the
first-encounter order of the labels during record iteration, so ties
are broken first-seen-first. -/
theorem distributions_sorted_desc_stable (rows : List AttributeRecord)
    (key : String) (label_map : Option (List (String × String))) :
    (distribution rows key label_map).Pairwise (fun a b => b.2 ≤ a.2) ∧
    (multiDistribution rows key).Pairwise (fun a b => b.2 ≤ a.2) ∧
    (∀ c : Nat,
      (distribution rows key label_map).filter (fun e => e.2 == c)
        = (distributionRaw rows key label_map).filter (fun e => e.2 == c)) ∧
    (∀ c : Nat,
      (multiDistribution rows key).filter (fun e => e.2 == c)
        = (multiDistributionRaw rows key).filter (fun e => e.2 == c)) ∧
    (distributionRaw rows key label_map).map Prod.fst
      = firstSeen (singleLabelStream rows key label_map) ∧
    (multiDistributionRaw rows key).map Prod.fst
      = firstSeen (multiLabelStream rows key) :=
  ⟨pairwise_sortByCountDesc _, pairwise_sortByCountDesc _,
   fun c => filter_sortByCountDesc _ c, fun c => filter_sortByCountDesc _ c,
   keys_distributionRaw rows key label_map,
   keys_multiDistributionRaw rows key⟩

/-! ### Per-label counts and invariance of lookup under the sort -/

theorem countOf_cons (p : String × Nat) (rest : List (String × Nat))
    (lab : String) :
    countOf (p :: rest) lab = if lab = p.1 then p.2 else countOf rest lab := by
  obtain ⟨k, n⟩ := p
  unfold countOf
  rw [List.lookup]
  by_cases h : lab = k
  · have : (lab == k) = true := by simp [h]
    rw [this]
    simp [h]
  · have : (lab == k) = false := by simp [h]
    rw [this]
    simp [h]

theorem countOf_bump (d : List (String × Nat)) (l lab : String) :
    countOf (bump d l) lab
      = if lab = l then countOf d lab + 1 else countOf d lab := by
  induction d with
  | nil =>
      rw [bump, countOf_cons]
      by_cases h : lab = l
      · simp [h, countOf]
      · simp [h, countOf]
  | cons kv rest ih =>
      obtain ⟨k, n⟩ := kv
      by_cases hk : k = l
      · subst hk
        rw [bump, if_pos rfl, countOf_cons, countOf_cons]
        by_cases hl : lab = k
        · simp [hl]
        · simp [hl]
      · rw [bump, if_neg hk, countOf_cons, ih, countOf_cons]
        by_cases hl : lab = k
        · subst hl
          have : ¬ lab = l := fun hc => hk (hc ▸ rfl)
          simp [this]
        · simp [hl]

theorem countOf_bumpAll (ls : List String) (d : List (String × Nat))
    (lab : String) :
    countOf (bumpAll d ls) lab = countOf d lab + ls.count lab := by
  induction ls generalizing d with
  | nil => simp [bumpAll]
  | cons l ls ih =>
      rw [bumpAll_cons, ih, countOf_bump, List.count_cons]
      by_cases h : lab = l
      · have hb : (l == lab) = true := by simp [h.symm]
        rw [hb, if_pos h]
        simp
        omega
      · have hb : (l == lab) = false := by
          simp
          exact fun hc => h hc.symm
        rw [hb, if_neg h]
        simp

theorem nodup_keys_bump {d : List (String × Nat)}
    (h : (d.map Prod.fst).Nodup) (l : String) :
    ((bump d l).map Prod.fst).Nodup := by
  rw [keys_bump]
  by_cases hc : (d.map Prod.fst).contains l = true
  · rw [if_pos hc]
    exact h
  · rw [if_neg hc]
    have hl : l ∉ d.map Prod.fst := by
      have : (d.map Prod.fst).contains l = false :=
        Bool.eq_false_iff.mpr hc
      simpa using this
    refine List.Nodup.append h (List.nodup_singleton l) ?_
    intro a ha hb
    simp at hb
    subst hb
    exact hl ha

theorem nodup_keys_bumpAll (ls : List String) {d : List (String × Nat)}
    (h : (d.map Prod.fst).Nodup) :
    ((bumpAll d ls).map Prod.fst).Nodup := by
  induction ls generalizing d with
  | nil => exact h
  | cons l ls ih =>
      rw [bumpAll_cons]
      exact ih (nodup_keys_bump h l)

theorem mem_sortByCountDesc {y : String × Nat} {l : List (String × Nat)} :
    y ∈ sortByCountDesc l ↔ y ∈ l := by
  induction l with
  | nil => simp [sortByCountDesc]
  | cons x xs ih =>
      rw [sortByCountDesc]
      rw [mem_insertByCount]
      simp [ih]

theorem countOf_insertByCount {x : String × Nat} {l : List (String × Nat)}
    (hx : x.1 ∉ l.map Prod.fst) (k : String) :
    countOf (insertByCount x l) k
      = if k = x.1 then x.2 else countOf l k := by
  induction l with
  | nil =>
      rw [insertByCount, countOf_cons]
  | cons y ys ih =>
      simp only [List.map_cons, List.mem_cons] at hx
      push_neg at hx
      by_cases hxy : y.2 ≤ x.2
      · rw [insertByCount, if_pos hxy, countOf_cons]
      · rw [insertByCount, if_neg hxy, countOf_cons, ih hx.2, countOf_cons]
        by_cases h1 : k = y.1
        · subst h1
          have h2 : ¬ y.1 = x.1 := fun hc => hx.1 hc.symm
          simp [h2]
        · simp [h1]

theorem countOf_sortByCountDesc {l : List (String × Nat)}
    (h : (l.map Prod.fst).Nodup) (k : String) :
    countOf (sortByCountDesc l) k = countOf l k := by
  induction l with
  | nil => rfl
  | cons x xs ih =>
      simp only [List.map_cons] at h
      rcases List.nodup_cons.mp h with ⟨hx, hxs⟩
      rw [sortByCountDesc]
      have hx2 : x.1 ∉ (sortByCountDesc xs).map Prod.fst := by
        intro hcon
        rcases List.mem_map.mp hcon with ⟨p, hp, hp2⟩
        exact hx (List.mem_map.mpr ⟨p, mem_sortByCountDesc.mp hp, hp2⟩)
      rw [countOf_insertByCount hx2, ih hxs, countOf_cons]

theorem countOf_multiDistribution (rows : List AttributeRecord)
    (key lab : String) :
    countOf (multiDistribution rows key) lab
      = countOf (multiDistributionRaw rows key) lab := by
  unfold multiDistribution
  refine countOf_sortByCountDesc ?_ lab
  rw [multiDistributionRaw_eq_bumpAll]
  exact nodup_keys_bumpAll _ (by simp)

/-- C4: a multi-value distribution splits each record value on commas,
trims each token, drops the empty tokens and bumps each remaining
token's bucket independently: appending one record raises each
non-empty label's count by the number of occurrences of that label
among the record's trimmed tokens — in particular a record with
language value "Arabic, English, Arabic" contributes 2 to "Arabic"
and 1 to "English". -/
theorem multi_distribution_token_counts
    (rows : List AttributeRecord) (r : AttributeRecord) (key lab : String)
    (hlab : lab ≠ "") :
    countOf (multiDistribution (rows ++ [r]) key) lab
      = countOf (multiDistribution rows key) lab
        + ((splitComma ((getAttr r key).getD "")).map strip).count lab ∧
    countOf
        (multiDistribution
          [[("language", some "Arabic, English, Arabic")]] "language")
        "Arabic" = 2 ∧
    countOf
        (multiDistribution
          [[("language", some "Arabic, English, Arabic")]] "language")
        "English" = 1 := by
  refine ⟨?_, by decide, by decide⟩
  rw [countOf_multiDistribution, countOf_multiDistribution]
  rw [multiDistributionRaw_eq_bumpAll, multiDistributionRaw_eq_bumpAll]
  have hsplit : multiLabelStream (rows ++ [r]) key
      = multiLabelStream rows key
        ++ tokensOf ((getAttr r key).getD "") := by
    unfold multiLabelStream
    rw [List.flatMap_append]
    simp
  rw [hsplit, bumpAll_append, countOf_bumpAll]
  congr 1
  unfold tokensOf
  by_cases hv : (getAttr r key).getD "" = ""
  · rw [if_pos hv, hv]
    have hconc : (splitComma "").map strip = [""] := rfl
    rw [hconc]
    have hb : ("" == lab) = false := by
      simp
      exact fun hc => hlab hc.symm
    simp [List.count_cons, hb]
  · rw [if_neg hv]
    exact List.count_filter (by simp [hlab])

theorem multi_distribution_token_counts_witness :
    countOf
        (multiDistribution
          ([] ++ [[("language", some "Arabic, English, Arabic")]])
          "language")
        "Arabic"
      = countOf (multiDistribution [] "language") "Arabic"
        + ((splitComma
              ((getAttr [("language", some "Arabic, English, Arabic")]
                  "language").getD "")).map strip).count "Arabic" ∧
    countOf
        (multiDistribution
          [[("language", some "Arabic, English, Arabic")]] "language")
        "Arabic" = 2 ∧
    countOf
        (multiDistribution
          [[("language", some "Arabic, English, Arabic")]] "language")
        "English" = 1 :=
  multi_distribution_token_counts []
    [("language", some "Arabic, English, Arabic")] "language" "Arabic"
    (by decide)

end Survey123
